import Mathlib

/-!
# Verification of the treetrace web application's specification claims

This file gives a shallow embedding, in Lean 4, of the parts of the
treetrace repository (a Next.js + Supabase tree-inventory application)
that its natural-language specification makes claims about:

* the image upload/cleanup storage-path derivation
  (`src/components/tree-form.tsx` `uploadImages`, and the cleanup code in
  `tree-detail-client`'s `handleDelete` / `tree-form`'s `onSubmit`);
* the tree-form submission logic (`onSubmit`): care-timeline JSON
  validation and premium-field gating;
* the dashboard catalog query (`fetchTrees` in `app/dashboard/page.tsx`):
  pagination, ordering and the substring search filter;
* role gating (server-side `getUsersData` of the admin page, client-side
  `isAdmin` of the dashboard);
* the edit page's ownership-restricted `getTree`;
* the two server-side proxy endpoints (`api/admin/create-user`,
  `api/admin/delete-user`);
* the admin user manager's delete-button gating and self-deletion branch.

JavaScript strings are embedded as Lean `String`s, JS numbers as `Int`
(for the form fields that matter here only zero-versus-nonzero truthiness
is relevant) or `Nat` (timestamps), `null`/`undefined` as `Option`, and
thrown exceptions as `Except`.  Behaviour of the remote Supabase /
PostgREST backend (query evaluation, public-URL construction) is modelled
by executable Lean functions following the documented semantics of those
APIs; every piece of logic that lives in the repository itself is
translated directly from the source.
-/

namespace TreeTrace

/-! ## JavaScript-primitive helpers -/

/-- JS `x || null` for an optional string: the empty string is falsy. -/
def jsOrNullStr : Option String → Option String
  | some s => if s = "" then none else some s
  | none => none

/-- JS `x || null` for an optional number: `0` is falsy. -/
def jsOrNullInt : Option Int → Option Int
  | some n => if n = 0 then none else some n
  | none => none

/-- JS truthiness of an optional string (`undefined`/`""` are falsy). -/
def jsTruthyStr : Option String → Bool
  | some s => s != ""
  | none => false

/-- JS `msg || fallback` for strings: the empty string falls back. -/
def jsOrElse (msg fallback : String) : String :=
  if msg = "" then fallback else msg

/-! ## A model of JSON values

`JSON.parse` itself is a JavaScript builtin, so the parse function is kept
abstract (a parameter of type `String → Except String Json`, returning
`.error msg` when `JSON.parse` would throw); the repository's own logic
only inspects the parsed value, which is modelled by this inductive. -/

inductive Json where
  | null
  | bool (b : Bool)
  | num (n : Int)
  | str (s : String)
  | arr (elems : List Json)
  | obj (fields : List (String × Json))
deriving Repr

/-- JS `Array.isArray`. -/
def Json.isArray : Json → Bool
  | .arr _ => true
  | _ => false

/-- JS truthiness of a JSON value (`null`, `false`, `0`, `""` are falsy). -/
def Json.truthy : Json → Bool
  | .null => false
  | .bool b => b
  | .num n => n != 0
  | .str s => s != ""
  | _ => true

/-- JS property access `j.k` on a parsed JSON value: the first field named
`k` of an object, `null` (modelling `undefined`) otherwise. -/
def Json.getField (j : Json) (k : String) : Json :=
  match j with
  | .obj fields =>
    match fields.find? (fun kv => kv.1 == k) with
    | some kv => kv.2
    | none => .null
  | _ => .null

/-! ## C1: storage paths — upload and cleanup

`uploadImages` (tree-form.tsx) stores a file at
`${userId}/${treeId}/${timestamp}-${file.name}` and asks the storage API
for the file's public URL.  The cleanup code (`handleDelete` in
tree-detail-client.tsx, and the image-replacement branch of `onSubmit` in
tree-form.tsx) recovers the storage path from the public URL with

    const pathSegments = img.image_url.split("/");
    const path = pathSegments.slice(pathSegments.indexOf("public") + 2).join("/");
-/

/-- JS `String.prototype.split("/")`, by recursion on the characters with
an accumulator for the current segment (in reverse). -/
def splitSlashAux : List Char → List Char → List String
  | [], acc => [String.mk acc.reverse]
  | c :: cs, acc =>
    if c = '/' then String.mk acc.reverse :: splitSlashAux cs []
    else splitSlashAux cs (c :: acc)

/-- JS `url.split("/")`. -/
def jsSplitSlash (s : String) : List String :=
  splitSlashAux s.toList []

/-- JS `Array.prototype.join("/")`. -/
def joinSlash : List String → String
  | [] => ""
  | s :: rest => if rest.isEmpty then s else s ++ "/" ++ joinSlash rest

/-- JS `Array.prototype.indexOf`: first index of `x`, `-1` when absent. -/
def jsIndexOf (l : List String) (x : String) : Int :=
  match l.findIdx? (fun s => s == x) with
  | some n => (n : Int)
  | none => -1

/-- tree-form.tsx `uploadImages`: `const fileName = [timestamp]-[file.name]`
(template literal), where the timestamp is `Date.now()`. -/
def uploadStoredFileName (timestamp : Nat) (name : String) : String :=
  toString timestamp ++ "-" ++ name

/-- tree-form.tsx `uploadImages`:
`const filePath = [userId]/[treeId]/[fileName]` (template literal). -/
def uploadFilePath (userId treeId storedFileName : String) : String :=
  userId ++ "/" ++ treeId ++ "/" ++ storedFileName

/-- The public URL the storage API reports for an uploaded object, as
documented in the comment inside `handleDelete` (tree-detail-client.tsx):
`https://[project-ref].supabase.co/storage/v1/object/public/treeimages/...`
with the project ref used by the repository's API routes. -/
def storagePublicUrl (filePath : String) : String :=
  "https://hvsiqynmuomnmpzeivxs.supabase.co/storage/v1/object/public/treeimages/" ++ filePath

/-- The cleanup code's path derivation:
`pathSegments.slice(pathSegments.indexOf("public") + 2).join("/")`.
(JS `slice(k)` for `k ≥ 0` is `List.drop k`; here the index is `≥ -1`,
so `k = indexOf + 2 ≥ 1` whenever the segment is present and `1` when
absent, matching `Int.toNat` of the sum.) -/
def pathFromPublicUrl (url : String) : String :=
  let pathSegments := jsSplitSlash url
  joinSlash (pathSegments.drop (jsIndexOf pathSegments "public" + 2).toNat)

/-! ### Lemmas about the split/join round trip -/

theorem string_mk_toList (s : String) : String.mk s.toList = s := rfl

theorem splitSlashAux_no_slash (cs acc : List Char) (h : '/' ∉ cs) :
    splitSlashAux cs acc = [String.mk (acc.reverse ++ cs)] := by
  induction cs generalizing acc with
  | nil => simp [splitSlashAux]
  | cons c cs ih =>
    have hc : ¬ c = '/' := fun e => h (by simp [e])
    have hcs : '/' ∉ cs := fun hm => h (List.mem_cons_of_mem _ hm)
    rw [splitSlashAux, if_neg hc, ih _ hcs]
    simp

theorem splitSlashAux_append (cs rest acc : List Char) (h : '/' ∉ cs) :
    splitSlashAux (cs ++ '/' :: rest) acc =
      String.mk (acc.reverse ++ cs) :: splitSlashAux rest [] := by
  induction cs generalizing acc with
  | nil => simp [splitSlashAux]
  | cons c cs ih =>
    have hc : ¬ c = '/' := fun e => h (by simp [e])
    have hcs : '/' ∉ cs := fun hm => h (List.mem_cons_of_mem _ hm)
    rw [List.cons_append, splitSlashAux, if_neg hc, ih _ hcs]
    simp

theorem toList_append (a b : String) : (a ++ b).toList = a.toList ++ b.toList :=
  String.data_append a b

theorem jsSplitSlash_append_seg (a b : String) (h : '/' ∉ a.toList) :
    jsSplitSlash (a ++ "/" ++ b) = a :: jsSplitSlash b := by
  unfold jsSplitSlash
  have hdata : (a ++ "/" ++ b).toList = a.toList ++ '/' :: b.toList := by
    have hslash : ("/" : String).toList = ['/'] := by decide
    rw [toList_append, toList_append, hslash, List.append_assoc]
    rfl
  rw [hdata, splitSlashAux_append _ _ _ h]
  simp [string_mk_toList]

theorem jsSplitSlash_no_slash (a : String) (h : '/' ∉ a.toList) :
    jsSplitSlash a = [a] := by
  unfold jsSplitSlash
  rw [splitSlashAux_no_slash _ _ h]
  simp [string_mk_toList]

theorem digitChar_ne_slash (n : Nat) : Nat.digitChar n ≠ '/' := by
  rcases Nat.lt_or_ge n 16 with h | h
  · interval_cases n <;> decide
  · have h16 : Nat.digitChar n = '*' := by
      rw [Nat.digitChar]
      repeat rw [if_neg (by omega : ¬ _ = _)]
    rw [h16]; decide

theorem toDigitsCore_no_slash (b fuel n : Nat) (ds : List Char) (h : '/' ∉ ds) :
    '/' ∉ Nat.toDigitsCore b fuel n ds := by
  induction fuel generalizing n ds with
  | zero => simpa [Nat.toDigitsCore] using h
  | succ fuel ih =>
    rw [Nat.toDigitsCore]
    have hd : ¬ '/' = (n % b).digitChar := fun e => digitChar_ne_slash _ e.symm
    split
    · simp only [List.mem_cons, not_or]
      exact ⟨hd, h⟩
    · refine ih _ _ ?_
      simp only [List.mem_cons, not_or]
      exact ⟨hd, h⟩

theorem natRepr_no_slash (n : Nat) : '/' ∉ (toString n).toList := by
  show '/' ∉ (Nat.repr n).toList
  rw [Nat.repr]
  show '/' ∉ Nat.toDigits 10 n
  exact toDigitsCore_no_slash _ _ _ _ (by simp)

theorem storagePublicUrl_eq (p : String) :
    storagePublicUrl p =
      "https:" ++ "/" ++ ("" ++ "/" ++ ("hvsiqynmuomnmpzeivxs.supabase.co" ++ "/" ++
        ("storage" ++ "/" ++ ("v1" ++ "/" ++ ("object" ++ "/" ++ ("public" ++ "/" ++
          ("treeimages" ++ "/" ++ p))))))) := by
  unfold storagePublicUrl
  simp [← String.append_assoc]

theorem findIdx?_cons_true {α : Type} (p : α → Bool) (a : α) (l : List α) (i : Nat)
    (h : p a = true) : List.findIdx? p (a :: l) i = some i := by
  simp [List.findIdx?_cons, h]

theorem findIdx?_cons_false {α : Type} (p : α → Bool) (a : α) (l : List α) (i : Nat)
    (h : p a = false) : List.findIdx? p (a :: l) i = List.findIdx? p l (i + 1) := by
  simp [List.findIdx?_cons, h]

/-- **C1.** The upload/cleanup path derivation round-trips: for every
`userId`, `treeId` and file name free of `'/'`, and every timestamp,
deriving the storage path (split on `"/"`, join the segments starting two
positions after the segment `"public"`) from the public URL of the path
`uploadImages` stored yields exactly that path. -/
theorem upload_cleanup_roundtrip (userId treeId fileName : String) (ts : Nat)
    (hu : '/' ∉ userId.toList) (ht : '/' ∉ treeId.toList)
    (hf : '/' ∉ fileName.toList) :
    pathFromPublicUrl
        (storagePublicUrl (uploadFilePath userId treeId (uploadStoredFileName ts fileName))) =
      uploadFilePath userId treeId (uploadStoredFileName ts fileName) := by
  set fn := uploadStoredFileName ts fileName with hfn_def
  have hfn : '/' ∉ fn.toList := by
    rw [hfn_def]
    unfold uploadStoredFileName
    rw [toList_append, toList_append]
    intro hm
    rcases List.mem_append.1 hm with hm | hm
    · rcases List.mem_append.1 hm with hm | hm
      · exact natRepr_no_slash ts hm
      · simp at hm
    · exact hf hm
  have hpath : uploadFilePath userId treeId fn = userId ++ "/" ++ (treeId ++ "/" ++ fn) := by
    unfold uploadFilePath
    simp [String.append_assoc]
  have hsegs : jsSplitSlash (storagePublicUrl (uploadFilePath userId treeId fn)) =
      ["https:", "", "hvsiqynmuomnmpzeivxs.supabase.co", "storage", "v1", "object",
        "public", "treeimages", userId, treeId, fn] := by
    rw [storagePublicUrl_eq, hpath]
    rw [jsSplitSlash_append_seg _ _ (by decide), jsSplitSlash_append_seg _ _ (by decide),
      jsSplitSlash_append_seg _ _ (by decide), jsSplitSlash_append_seg _ _ (by decide),
      jsSplitSlash_append_seg _ _ (by decide), jsSplitSlash_append_seg _ _ (by decide),
      jsSplitSlash_append_seg _ _ (by decide), jsSplitSlash_append_seg _ _ (by decide),
      jsSplitSlash_append_seg _ _ hu, jsSplitSlash_append_seg _ _ ht,
      jsSplitSlash_no_slash _ hfn]
  have hidx : jsIndexOf
      ["https:", "", "hvsiqynmuomnmpzeivxs.supabase.co", "storage", "v1", "object",
        "public", "treeimages", userId, treeId, fn] "public" = 6 := by
    unfold jsIndexOf
    rw [findIdx?_cons_false _ _ _ _ (by decide), findIdx?_cons_false _ _ _ _ (by decide),
      findIdx?_cons_false _ _ _ _ (by decide), findIdx?_cons_false _ _ _ _ (by decide),
      findIdx?_cons_false _ _ _ _ (by decide), findIdx?_cons_false _ _ _ _ (by decide),
      findIdx?_cons_true _ _ _ _ (by decide)]
    norm_num
  have hopen : pathFromPublicUrl (storagePublicUrl (uploadFilePath userId treeId fn)) =
      joinSlash ((jsSplitSlash (storagePublicUrl (uploadFilePath userId treeId fn))).drop
        (jsIndexOf (jsSplitSlash (storagePublicUrl (uploadFilePath userId treeId fn)))
          "public" + 2).toNat) := rfl
  rw [hopen, hsegs, hidx]
  have h8 : ((6 : Int) + 2).toNat = 8 := by decide
  rw [h8, hpath]
  simp [joinSlash]

/-- Witness for C1 at `userId = "u1"`, `treeId = "t9"`,
`fileName = "leaf.jpg"`, timestamp `5`. -/
theorem upload_cleanup_roundtrip_witness :
    pathFromPublicUrl (storagePublicUrl (uploadFilePath "u1" "t9" (uploadStoredFileName 5 "leaf.jpg"))) =
      uploadFilePath "u1" "t9" (uploadStoredFileName 5 "leaf.jpg") :=
  upload_cleanup_roundtrip "u1" "t9" "leaf.jpg" 5 (by decide) (by decide) (by decide)

/-! ## Data model (lib/types.ts)

`created_at` is an ISO-8601 timestamp string in the source; since the only
use the claims make of it is the backend's ordering, it is embedded as a
`Nat` timestamp (ISO strings compare lexicographically exactly like their
timestamps). -/

structure TreeImage where
  id : String
  tree_id : String
  image_url : String
  uploaded_at : String
deriving Repr, DecidableEq

structure Tree where
  id : String
  created_at : Nat
  user_id : String
  common_name : String
  scientific_name : String
  facts : Option String
  description : Option String
  latitude : Option Int
  longitude : Option Int
  is_premium : Option Bool
  age : Option Int
  biological_conditions : Option String
  care_timeline : Option Json
  benefits : Option String
deriving Repr

structure TreeWithImages where
  tree : Tree
  tree_images : List TreeImage
deriving Repr

/-- The remote store's state: the `trees` and `tree_images` tables, each a
list of rows in the backend's storage order. -/
structure Db where
  trees : List Tree
  images : List TreeImage
deriving Repr

/-- PostgREST embedded-resource semantics of `select("*, tree_images (*)")`:
the tree together with the stored images whose `tree_id` is the tree's id.
No `order` clause is applied to the embedded relation anywhere in the
repository, so the images come back in the backend's storage order. -/
def selectTreeWithImages (db : Db) (t : Tree) : TreeWithImages :=
  { tree := t, tree_images := db.images.filter (fun img => img.tree_id == t.id) }

/-! ## The dashboard catalog query (app/dashboard/page.tsx `fetchTrees`) -/

/-- SQL `LIKE`/`ILIKE` pattern matching (case-insensitive, which is what
`ilike` means): `%` matches any sequence of characters, `_` any single
character, any other pattern character matches itself up to case; the
pattern must cover the whole string. -/
def likeMatch : List Char → List Char → Bool
  | [], s => s.isEmpty
  | pc :: ps, s =>
    if pc = '%' then s.tails.any (fun t => likeMatch ps t)
    else
      match s with
      | [] => false
      | c :: cs =>
        if pc = '_' then likeMatch ps cs
        else (pc.toLower == c.toLower) && likeMatch ps cs

/-- The pattern `%[searchQuery]%` that `fetchTrees` interpolates into
`common_name.ilike.%...%,scientific_name.ilike.%...%`. -/
def ilikePattern (q : String) : List Char :=
  '%' :: (q.toList ++ ['%'])

/-- The `.or(...)` filter `fetchTrees` adds for a truthy search query. -/
def matchesSearch (q : String) (t : Tree) : Bool :=
  likeMatch (ilikePattern q) t.common_name.toList ||
    likeMatch (ilikePattern q) t.scientific_name.toList

/-- Insert a tree into a list sorted by `created_at` descending. -/
def insertByCreatedAtDesc (t : Tree) : List Tree → List Tree
  | [] => [t]
  | u :: us =>
    if u.created_at < t.created_at then t :: u :: us
    else u :: insertByCreatedAtDesc t us

/-- Backend evaluation of `order("created_at", { ascending: false })`:
a sort of the rows by `created_at` descending. -/
def sortByCreatedAtDesc : List Tree → List Tree
  | [] => []
  | t :: ts => insertByCreatedAtDesc t (sortByCreatedAtDesc ts)

/-- dashboard/page.tsx: `const PAGE_SIZE = 12`. -/
def PAGE_SIZE : Nat := 12

/-- The parameters `fetchTrees` sends: `const from = page * pageSize;`
`const to = from + pageSize - 1;`, `.range(from, to)` (inclusive), plus
the search string for the conditional `.or(...)` filter. -/
structure TreesQuery where
  rangeFrom : Nat
  rangeTo : Nat
  searchQuery : String
deriving Repr, DecidableEq

def fetchTreesQuery (page pageSize : Nat) (searchQuery : String) : TreesQuery :=
  { rangeFrom := page * pageSize
    rangeTo := page * pageSize + pageSize - 1
    searchQuery := searchQuery }

/-- The filter step: `if (searchQuery) query = query.or(...)`, i.e. the
`ilike` disjunction is applied exactly for a non-empty (truthy) query. -/
def filteredTrees (db : Db) (searchQuery : String) : List Tree :=
  if searchQuery != "" then db.trees.filter (matchesSearch searchQuery)
  else db.trees

/-- PostgREST evaluation of the built query: filter, order by created_at
descending, return the inclusive row range `[rangeFrom, rangeTo]` of the
result, and (because of `{ count: "exact" }`) the exact number of rows
matching the filter. -/
def runTreesQuery (db : Db) (q : TreesQuery) : List TreeWithImages × Nat :=
  let filtered := filteredTrees db q.searchQuery
  let sorted := sortByCreatedAtDesc filtered
  let rows := (sorted.drop q.rangeFrom).take (q.rangeTo + 1 - q.rangeFrom)
  (rows.map (selectTreeWithImages db), filtered.length)

/-- dashboard/page.tsx `fetchTrees` (successful-response case; on a query
error the source returns `{ trees: [], count: 0 }` instead). -/
def fetchTrees (db : Db) (page pageSize : Nat) (searchQuery : String) :
    List TreeWithImages × Nat :=
  runTreesQuery db (fetchTreesQuery page pageSize searchQuery)

/-! ## Detail and edit page fetches -/

/-- `.single()`: succeeds exactly when the filtered result has one row. -/
def singleRow {α : Type} : List α → Option α
  | [a] => some a
  | _ => none

/-- app/trees/[id]/page.tsx `getTree`'s tree fetch:
`.select("*, tree_images (*)").eq("id", id).single()`;
on error the page's `getTree` returns a null tree. -/
def getTreeDetail (db : Db) (id : String) : Option TreeWithImages :=
  (singleRow (db.trees.filter (fun t => t.id == id))).map (selectTreeWithImages db)

/-- app/trees/edit/[id]/page.tsx `getTree`'s fetch:
`.eq("id", id).eq("user_id", user.id).single()`; on error it returns null. -/
def editGetTree (db : Db) (userId id : String) : Option TreeWithImages :=
  (singleRow (db.trees.filter (fun t => t.id == id && t.user_id == userId))).map
    (selectTreeWithImages db)

inductive EditPageOutcome where
  | redirectLogin
  | renderNotFound
  | renderEditForm (tree : TreeWithImages)
deriving Repr

/-- The edit page: unauthenticated users are redirected to `/`; when
`getTree` returns null the page renders `notFound()`; otherwise it renders
the edit form for the fetched tree. -/
def editTreePage (db : Db) (user : Option String) (id : String) : EditPageOutcome :=
  match user with
  | none => .redirectLogin
  | some uid =>
    match editGetTree db uid id with
    | none => .renderNotFound
    | some t => .renderEditForm t

/-! ## Role gating (admin page server-side, dashboard client-side) -/

structure Role where
  id : Int
  name : String
deriving Repr, DecidableEq

structure UserProfileWithSingleRole where
  id : String
  full_name : Option String
  role : Option Role
deriving Repr, DecidableEq

inductive AdminPageOutcome where
  | redirectDashboard
  | proceed (isAdmin : Bool)
deriving Repr, DecidableEq

/-- The admin page's role check in `getUsersData` (for an authenticated
user; unauthenticated users were already redirected to `/` before this):

    if (userProfileError || !userProfileData || !userProfileData.role ||
        userProfileData.role.name !== "admin") { redirect("/dashboard"); }
    else { isAdmin = true; }

The argument is the result of the profile fetch: `.error` models a fetch
error, `.ok none` a missing profile. -/
def adminRoleGate
    (profileFetch : Except String (Option UserProfileWithSingleRole)) :
    AdminPageOutcome :=
  match profileFetch with
  | .error _ => .redirectDashboard
  | .ok none => .redirectDashboard
  | .ok (some p) =>
    match p.role with
    | none => .redirectDashboard
    | some r => if r.name != "admin" then .redirectDashboard else .proceed true

/-- The dashboard's client-side profile handling: on a fetch error the
`isAdmin` state is left unchanged (only logged); otherwise
`setIsAdmin(true)` exactly when `userProfileData && userProfileData.role
&& userProfileData.role.name === "admin"`, else `setIsAdmin(false)`.
Returns the new value of the `isAdmin` state given the previous one. -/
def dashboardIsAdmin
    (profileFetch : Except String (Option UserProfileWithSingleRole))
    (prev : Bool) : Bool :=
  match profileFetch with
  | .error _ => prev
  | .ok p =>
    match p with
    | some prof =>
      match prof.role with
      | some r => r.name == "admin"
      | none => false
    | none => false

/-! ## The tree form's `onSubmit` (components/tree-form.tsx) -/

/-- The validated form values `onSubmit` receives (zod `treeSchema`):
optional absent values are `none`. -/
structure TreeFormData where
  common_name : String
  scientific_name : String
  facts : Option String
  description : Option String
  latitude : Option Int
  longitude : Option Int
  location : Option String
  landmark : Option String
  carbon_footprint : Option Int
  is_premium : Bool
  age : Option Int
  biological_conditions : Option String
  care_timeline : Option String
  benefits : Option String
deriving Repr

/-- The care-timeline step of `onSubmit`:

    let parsedCareTimeline = null;
    if (data.is_premium && data.care_timeline) {
      try {
        parsedCareTimeline = JSON.parse(data.care_timeline);
        if (!Array.isArray(parsedCareTimeline)) {
          throw new Error("Care timeline must be a valid JSON array.");
        }
      } catch (jsonError) {
        throw new Error(`Invalid JSON format for Care Timeline: ...`);
      }
    }

`parse` models `JSON.parse` (`.error msg` when it would throw with that
message). -/
def parseCareTimeline (parse : String → Except String Json)
    (data : TreeFormData) : Except String (Option Json) :=
  if data.is_premium && jsTruthyStr data.care_timeline then
    match parse (data.care_timeline.getD "") with
    | .error msg => .error ("Invalid JSON format for Care Timeline: " ++ msg)
    | .ok j =>
      if j.isArray then .ok (some j)
      else .error
        "Invalid JSON format for Care Timeline: Care timeline must be a valid JSON array."
  else .ok none

/-- The five fields of the `premiumFields` object in `onSubmit`. -/
structure PremiumFieldsData where
  is_premium : Bool
  age : Option Int
  biological_conditions : Option String
  care_timeline : Option Json
  benefits : Option String
deriving Repr

/-- `const premiumFields = data.is_premium ? {...} : {...}` in `onSubmit`. -/
def premiumFieldsOf (data : TreeFormData) (parsedCareTimeline : Option Json) :
    PremiumFieldsData :=
  if data.is_premium then
    { is_premium := true
      age := jsOrNullInt data.age
      biological_conditions := jsOrNullStr data.biological_conditions
      care_timeline := parsedCareTimeline
      benefits := jsOrNullStr data.benefits }
  else
    { is_premium := false
      age := none
      biological_conditions := none
      care_timeline := none
      benefits := none }

/-- The row written to the `trees` table by the update/insert call in
`onSubmit` (without the insert-only `user_id` column). -/
structure TreeRowData where
  common_name : String
  scientific_name : String
  facts : Option String
  description : Option String
  latitude : Option Int
  longitude : Option Int
  location : Option String
  landmark : Option String
  carbon_footprint : Option Int
  is_premium : Bool
  age : Option Int
  biological_conditions : Option String
  care_timeline : Option Json
  benefits : Option String
deriving Repr

/-- The object literal passed to `.update(...)` / `.insert(...)`
(spreading `premiumFields`). -/
def rowFromForm (data : TreeFormData) (pf : PremiumFieldsData) : TreeRowData :=
  { common_name := data.common_name
    scientific_name := data.scientific_name
    facts := jsOrNullStr data.facts
    description := jsOrNullStr data.description
    latitude := jsOrNullInt data.latitude
    longitude := jsOrNullInt data.longitude
    location := jsOrNullStr data.location
    landmark := jsOrNullStr data.landmark
    carbon_footprint := jsOrNullInt data.carbon_footprint
    is_premium := pf.is_premium
    age := pf.age
    biological_conditions := pf.biological_conditions
    care_timeline := pf.care_timeline
    benefits := pf.benefits }

/-- The write `onSubmit` performs on the `trees` table. -/
inductive DbWrite where
  | insertTree (user_id : String) (row : TreeRowData)
  | updateTree (id : String) (row : TreeRowData)
deriving Repr

def DbWrite.row : DbWrite → TreeRowData
  | .insertTree _ r => r
  | .updateTree _ r => r

/-- `onSubmit` up to and including the `trees`-table write: parse/validate
the care timeline (a thrown error aborts the submission before any
database call), build `premiumFields`, then update (when editing
`initialData`) or insert (when creating).  `.error e` models the thrown
error that `onSubmit`'s catch block turns into the form's error banner;
in that case no insert or update was issued. -/
def onSubmitWrite (parse : String → Except String Json) (userId : String)
    (initialId : Option String) (data : TreeFormData) :
    Except String DbWrite :=
  match parseCareTimeline parse data with
  | .error e => .error e
  | .ok parsedCareTimeline =>
    let pf := premiumFieldsOf data parsedCareTimeline
    match initialId with
    | some id => .ok (.updateTree id (rowFromForm data pf))
    | none => .ok (.insertTree userId (rowFromForm data pf))

/-! ## The two proxy API routes (api/admin/create-user, api/admin/delete-user) -/

/-- What the remote edge function answered: HTTP status, `response.ok`,
and the result of `await response.json()` (which can itself throw, hence
`Except`). -/
structure RemoteResponse where
  ok : Bool
  status : Nat
  body : Except String Json
deriving Repr

/-- The request the route handler forwards via `fetch`. -/
structure ForwardedRequest where
  url : String
  authHeader : String
  body : Json
deriving Repr

/-- What the route handler returns (`NextResponse.json(body, {status})`). -/
structure ApiResponse where
  status : Nat
  body : Json
deriving Repr

structure ProxyRun where
  forwarded : Option ForwardedRequest
  response : ApiResponse
deriving Repr

/-- The shared shape of both POST handlers: read the JSON body (a throw
lands in the catch block), forward it with the client's `Authorization`
header (or `""` when absent) to the edge function, and surface the remote
outcome; any exception yields status 500 with
`error.message || "Internal Server Error"`. -/
def proxyForward (fwd : ForwardedRequest) (fallbackError : String)
    (remote : ForwardedRequest → Except String RemoteResponse) : ProxyRun :=
  match remote fwd with
  | .error e =>
    ⟨some fwd, ⟨500, .obj [("error", .str (jsOrElse e "Internal Server Error"))]⟩⟩
  | .ok r =>
    match r.body with
    | .error e =>
      ⟨some fwd, ⟨500, .obj [("error", .str (jsOrElse e "Internal Server Error"))]⟩⟩
    | .ok data =>
      if !r.ok then
        ⟨some fwd, ⟨r.status, .obj [("error",
          if (data.getField "error").truthy then data.getField "error"
          else .str fallbackError)]⟩⟩
      else ⟨some fwd, ⟨200, data⟩⟩

def proxyPost (edgeFunctionUrl : String) (forwardedBody : Json → Json)
    (fallbackError : String) (requestBody : Except String Json)
    (authHeader : Option String)
    (remote : ForwardedRequest → Except String RemoteResponse) : ProxyRun :=
  match requestBody with
  | .error e =>
    ⟨none, ⟨500, .obj [("error", .str (jsOrElse e "Internal Server Error"))]⟩⟩
  | .ok reqJson =>
    proxyForward ⟨edgeFunctionUrl, authHeader.getD "", forwardedBody reqJson⟩
      fallbackError remote

/-- create-user route: destructures `{email, password, roleName}` from the
request body and forwards exactly those fields. -/
def createUserForwardedBody (j : Json) : Json :=
  .obj [("email", j.getField "email"), ("password", j.getField "password"),
    ("roleName", j.getField "roleName")]

def createUserRoute (requestBody : Except String Json)
    (authHeader : Option String)
    (remote : ForwardedRequest → Except String RemoteResponse) : ProxyRun :=
  proxyPost "https://hvsiqynmuomnmpzeivxs.supabase.co/functions/v1/create-user-by-admin-"
    createUserForwardedBody "Failed to create user via Edge Function"
    requestBody authHeader remote

/-- delete-user route: destructures `{userId}` and forwards it. -/
def deleteUserForwardedBody (j : Json) : Json :=
  .obj [("userId", j.getField "userId")]

def deleteUserRoute (requestBody : Except String Json)
    (authHeader : Option String)
    (remote : ForwardedRequest → Except String RemoteResponse) : ProxyRun :=
  proxyPost "https://hvsiqynmuomnmpzeivxs.supabase.co/functions/v1/delete-user-by-admin"
    deleteUserForwardedBody "Failed to delete user via Edge Function"
    requestBody authHeader remote

/-! ## The admin user manager (components/admin/user-manager-client.tsx) -/

/-- The `disabled` expression of each row's Delete button:

    deletingUserId === profile.id || isCreatingUser ||
    isUpdatingRole !== null || currentUserId === profile.id -/
def deleteButtonDisabled (deletingUserId : Option String)
    (isCreatingUser : Bool) (isUpdatingRole : Option String)
    (currentUserId : Option String) (profileId : String) : Bool :=
  deletingUserId == some profileId || isCreatingUser ||
    isUpdatingRole.isSome || currentUserId == some profileId

/-- The observable effects of `handleDeleteUser` that the claims are
about (the pure state-flag updates such as `setDeletingUserId` are
omitted). -/
inductive ClientEffect where
  | deleteRequest (authToken userId : String)
  | setManageUserError (msg : String)
  | setManageUserSuccess (msg : String)
  | resetToFirstPage
  | signOut
  | navigate (href : String)
deriving Repr, DecidableEq

/-- `handleDeleteUser(userIdToDelete)`: confirm dialog, session check,
POST to `/api/admin/delete-user`, then on success reset pagination and —
when the deleted id is the current user's own id — sign out and navigate
to `/` (the login page).  `deleteApi` models the fetch + `response.json()`
+ `response.ok` check; its `.error` carries
`result.error || "Failed to delete user."` (or the session/fetch
exception's message), which the catch block shows. -/
def handleDeleteUser (confirmed : Bool) (session : Option String)
    (currentUserId : Option String)
    (deleteApi : String → String → Except String Unit)
    (userIdToDelete : String) : List ClientEffect :=
  if !confirmed then []
  else
    match session with
    | none => [.setManageUserError "No active session. Please log in."]
    | some token =>
      match deleteApi token userIdToDelete with
      | .error e =>
        [.deleteRequest token userIdToDelete, .setManageUserError e]
      | .ok _ =>
        [.deleteRequest token userIdToDelete,
          .setManageUserSuccess
            ("User " ++ userIdToDelete.take 8 ++ "... deleted successfully."),
          .resetToFirstPage] ++
        (if currentUserId == some userIdToDelete then [.signOut, .navigate "/"]
         else [])

/-! ## Helper lemmas: insertion sort, embedded images, like-patterns -/

theorem insertByCreatedAtDesc_perm (t : Tree) (l : List Tree) :
    (insertByCreatedAtDesc t l).Perm (t :: l) := by
  induction l with
  | nil => simp [insertByCreatedAtDesc]
  | cons u us ih =>
    unfold insertByCreatedAtDesc
    by_cases h : u.created_at < t.created_at
    · rw [if_pos h]
    · rw [if_neg h]
      exact (ih.cons u).trans (List.Perm.swap t u us)

theorem sortByCreatedAtDesc_perm (l : List Tree) :
    (sortByCreatedAtDesc l).Perm l := by
  induction l with
  | nil => simp [sortByCreatedAtDesc]
  | cons t ts ih => exact (insertByCreatedAtDesc_perm t _).trans (ih.cons t)

theorem insertByCreatedAtDesc_sorted (t : Tree) (l : List Tree)
    (h : l.Pairwise (fun a b => b.created_at ≤ a.created_at)) :
    (insertByCreatedAtDesc t l).Pairwise (fun a b => b.created_at ≤ a.created_at) := by
  induction l with
  | nil => simp [insertByCreatedAtDesc]
  | cons u us ih =>
    rcases List.pairwise_cons.1 h with ⟨hu, hus⟩
    unfold insertByCreatedAtDesc
    by_cases hc : u.created_at < t.created_at
    · rw [if_pos hc]
      refine List.pairwise_cons.2 ⟨?_, h⟩
      intro b hb
      rcases List.mem_cons.1 hb with hb | hb
      · exact hb ▸ Nat.le_of_lt hc
      · exact Nat.le_trans (hu b hb) (Nat.le_of_lt hc)
    · rw [if_neg hc]
      refine List.pairwise_cons.2 ⟨?_, ih hus⟩
      intro b hb
      have hmem : b ∈ t :: us := (insertByCreatedAtDesc_perm t us).mem_iff.1 hb
      rcases List.mem_cons.1 hmem with hb' | hb'
      · exact hb' ▸ Nat.le_of_not_lt hc
      · exact hu b hb'

theorem sortByCreatedAtDesc_sorted (l : List Tree) :
    (sortByCreatedAtDesc l).Pairwise (fun a b => b.created_at ≤ a.created_at) := by
  induction l with
  | nil => simp [sortByCreatedAtDesc]
  | cons t ts ih => exact insertByCreatedAtDesc_sorted t _ ih

theorem mem_selectTreeWithImages (db : Db) (t : Tree) (img : TreeImage) :
    img ∈ (selectTreeWithImages db t).tree_images ↔
      img ∈ db.images ∧ img.tree_id = t.id := by
  simp [selectTreeWithImages, List.mem_filter]

/-- **C5.** Dashboard pagination: for every page `p`, `fetchTrees` asks
for exactly the inclusive row range `[p*12, p*12+11]` (page size 12) of
the catalog ordered by `created_at` descending (a sorted permutation of
the trees matching the filter), and returns those rows together with the
exact count of matching trees. -/
theorem dashboard_pagination (db : Db) (p : Nat) (q : String) :
    (fetchTreesQuery p PAGE_SIZE q).rangeFrom = p * 12 ∧
    (fetchTreesQuery p PAGE_SIZE q).rangeTo = p * 12 + 11 ∧
    ((fetchTrees db p PAGE_SIZE q).1.map TreeWithImages.tree =
      ((sortByCreatedAtDesc (filteredTrees db q)).drop (p * 12)).take 12) ∧
    (sortByCreatedAtDesc (filteredTrees db q)).Perm (filteredTrees db q) ∧
    (sortByCreatedAtDesc (filteredTrees db q)).Pairwise
      (fun a b => b.created_at ≤ a.created_at) ∧
    (fetchTrees db p PAGE_SIZE q).2 = (filteredTrees db q).length := by
  refine ⟨rfl, ?_, ?_, sortByCreatedAtDesc_perm _, sortByCreatedAtDesc_sorted _, rfl⟩
  · show p * 12 + 12 - 1 = p * 12 + 11
    omega
  · show List.map TreeWithImages.tree
        (List.map (selectTreeWithImages db)
          (((sortByCreatedAtDesc (filteredTrees db q)).drop (p * 12)).take
            (p * 12 + 12 - 1 + 1 - p * 12))) =
      ((sortByCreatedAtDesc (filteredTrees db q)).drop (p * 12)).take 12
    have h12 : p * 12 + 12 - 1 + 1 - p * 12 = 12 := by omega
    rw [h12, List.map_map]
    have hid : (TreeWithImages.tree ∘ selectTreeWithImages db) = id := by
      funext t; rfl
    rw [hid, List.map_id]

/-! ## Sample data for witnesses and counterexamples -/

/-- A tree row with the optional columns null. -/
def mkTree (id : String) (created_at : Nat)
    (user_id common_name scientific_name : String) : Tree :=
  { id := id, created_at := created_at, user_id := user_id
    common_name := common_name, scientific_name := scientific_name
    facts := none, description := none, latitude := none, longitude := none
    is_premium := none, age := none, biological_conditions := none
    care_timeline := none, benefits := none }

def oakTree : Tree := mkTree "t1" 1 "alice" "Oak" "Quercus"

def imgA : TreeImage := ⟨"i1", "t1", "urlA", "2024-01-01"⟩

def imgB : TreeImage := ⟨"i2", "t1", "urlB", "2024-01-02"⟩

/-- Two database states holding the same tree and the same set of images,
differing only in the backend's storage order of `tree_images`. -/
def dbImagesAB : Db := ⟨[oakTree], [imgA, imgB]⟩

def dbImagesBA : Db := ⟨[oakTree], [imgB, imgA]⟩

theorem singleRow_eq_some {α : Type} (l : List α) (a : α)
    (h : singleRow l = some a) : l = [a] := by
  match l with
  | [] =>
    rw [show singleRow ([] : List α) = none from rfl] at h
    cases h
  | [x] =>
    have hx : some x = some a := h
    rw [Option.some.injEq] at hx
    rw [hx]
  | x :: y :: rest =>
    rw [show singleRow (x :: y :: rest) = none from rfl] at h
    cases h

/-- **C4 (amended).** Every tree fetched for display (dashboard list or
detail page) carries exactly the images whose `tree_id` equals the tree's
id.  (The order part of the claim fails, see
`tree_images_order_counterexample`.) -/
theorem tree_images_owned (db : Db) (p : Nat) (q id : String) :
    (∀ tw ∈ (fetchTrees db p PAGE_SIZE q).1, ∀ img,
      img ∈ tw.tree_images ↔ img ∈ db.images ∧ img.tree_id = tw.tree.id) ∧
    (∀ tw, getTreeDetail db id = some tw → ∀ img,
      img ∈ tw.tree_images ↔ img ∈ db.images ∧ img.tree_id = tw.tree.id) := by
  constructor
  · intro tw htw img
    rcases List.mem_map.1 htw with ⟨t, _, rfl⟩
    exact mem_selectTreeWithImages db t img
  · intro tw htw img
    unfold getTreeDetail at htw
    rcases ho : singleRow (db.trees.filter fun t => t.id == id) with _ | t0
    · rw [ho] at htw; simp at htw
    · rw [ho] at htw
      have hs : some (selectTreeWithImages db t0) = some tw := htw
      rw [← Option.some.inj hs]
      exact mem_selectTreeWithImages db t0 img

/-- Witness for C4: on `dbImagesAB`, the image `imgA` is in the detail
page's `tree_images` for tree `t1` because it is stored with
`tree_id = "t1"`. -/
theorem tree_images_owned_witness :
    imgA ∈ (selectTreeWithImages dbImagesAB oakTree).tree_images :=
  ((tree_images_owned dbImagesAB 0 "" "t1").2
      (selectTreeWithImages dbImagesAB oakTree) rfl imgA).mpr
    ⟨by simp [dbImagesAB], rfl⟩

/-- **C4, counterexample to the order part.** No ordering is requested for
`tree_images` anywhere in the repository (`select("*, tree_images (*)")`
has no `order` clause on the embedded relation), so the image list's order
is whatever storage order the backend happens to return: two states with
the same tree and the same set of images (a permutation) produce different
`tree_images` lists, i.e. the order is not defined by the query or data. -/
theorem tree_images_order_counterexample :
    dbImagesAB.trees = dbImagesBA.trees ∧
    dbImagesAB.images.Perm dbImagesBA.images ∧
    (getTreeDetail dbImagesAB "t1").map TreeWithImages.tree_images ≠
      (getTreeDetail dbImagesBA "t1").map TreeWithImages.tree_images := by
  refine ⟨rfl, List.Perm.swap imgB imgA [], ?_⟩
  decide

/-! ## Substring search (C6) -/

def lowerChars (s : String) : List Char :=
  s.toList.map Char.toLower

/-- `q` occurs in `s` as a case-insensitive substring. -/
def containsCI (q s : String) : Bool :=
  (lowerChars s).tails.any (fun t => (lowerChars q).isPrefixOf t)

theorem likeMatch_pct_cons (ps s : List Char) :
    likeMatch ('%' :: ps) s = s.tails.any (fun t => likeMatch ps t) := by
  simp [likeMatch]

theorem likeMatch_nil_pct (s : List Char) : likeMatch ['%'] s = true := by
  rw [likeMatch_pct_cons]
  refine List.any_eq_true.2 ⟨[], ?_, rfl⟩
  exact (List.mem_tails _ _).2 List.nil_suffix

theorem likeMatch_wildcard_free :
    ∀ (q : List Char), (∀ c ∈ q, c ≠ '%' ∧ c ≠ '_') → ∀ (s : List Char),
      likeMatch (q ++ ['%']) s =
        (q.map Char.toLower).isPrefixOf (s.map Char.toLower)
  | [], _, s => by
    simp only [List.nil_append, List.map_nil]
    rw [likeMatch_nil_pct]
    simp [List.isPrefixOf]
  | a :: q, hw, s => by
    have ha := hw a (List.mem_cons_self a q)
    have hq : ∀ c ∈ q, c ≠ '%' ∧ c ≠ '_' :=
      fun c hc => hw c (List.mem_cons_of_mem _ hc)
    cases s with
    | nil => simp [likeMatch, ha.1, List.isPrefixOf]
    | cons c cs =>
      rw [List.cons_append]
      rw [show likeMatch (a :: (q ++ ['%'])) (c :: cs) =
            if a = '%' then ((c :: cs).tails.any fun t => likeMatch (q ++ ['%']) t)
            else if a = '_' then likeMatch (q ++ ['%']) cs
            else (a.toLower == c.toLower) && likeMatch (q ++ ['%']) cs from rfl]
      rw [if_neg ha.1, if_neg ha.2]
      rw [likeMatch_wildcard_free q hq cs]
      simp [List.isPrefixOf]

theorem tails_map (f : Char → Char) (l : List Char) :
    (l.map f).tails = l.tails.map (List.map f) := by
  induction l with
  | nil => simp
  | cons a l ih => simp [List.tails_cons, ih]

/-- For a query free of SQL LIKE wildcards, the `ilike %q%` pattern test
is exactly case-insensitive substring containment. -/
theorem likeMatch_ilikePattern (q s : String)
    (hw : ∀ c ∈ q.toList, c ≠ '%' ∧ c ≠ '_') :
    likeMatch (ilikePattern q) s.toList = containsCI q s := by
  unfold ilikePattern containsCI lowerChars
  rw [likeMatch_pct_cons]
  have hfun : (fun t => likeMatch (q.toList ++ ['%']) t) =
      (fun t => (q.toList.map Char.toLower).isPrefixOf (t.map Char.toLower)) :=
    funext fun t => likeMatch_wildcard_free q.toList hw t
  rw [hfun, tails_map, List.any_map]
  rfl

/-- **C6 (amended).** For every non-empty search query free of SQL LIKE
wildcard characters (`%`, `_`), `fetchTrees` restricts the result to trees
whose `common_name` or `scientific_name` contains the query as a
case-insensitive substring; for the empty query no filter is applied.
(The wildcard restriction is forced by `search_wildcard_counterexample`:
the backend interprets wildcards in the interpolated `ilike` pattern.) -/
theorem search_substring_filter (db : Db) (p : Nat) (q : String)
    (hq : q ≠ "") (hw : ∀ c ∈ q.toList, c ≠ '%' ∧ c ≠ '_') :
    (∀ tw ∈ (fetchTrees db p PAGE_SIZE q).1,
      containsCI q tw.tree.common_name = true ∨
      containsCI q tw.tree.scientific_name = true) ∧
    filteredTrees db "" = db.trees := by
  constructor
  · intro tw htw
    rcases List.mem_map.1 htw with ⟨t, ht, rfl⟩
    have hsort : t ∈ sortByCreatedAtDesc (filteredTrees db q) :=
      List.mem_of_mem_drop (List.mem_of_mem_take ht)
    have hfil : t ∈ filteredTrees db q :=
      (sortByCreatedAtDesc_perm _).mem_iff.1 hsort
    have hmf : matchesSearch q t = true := by
      unfold filteredTrees at hfil
      rw [if_pos (by simp [hq] : (q != "") = true)] at hfil
      exact (List.mem_filter.1 hfil).2
    have hor : likeMatch (ilikePattern q) t.common_name.toList = true ∨
        likeMatch (ilikePattern q) t.scientific_name.toList = true := by
      unfold matchesSearch at hmf
      simpa using hmf
    rcases hor with h | h
    · exact Or.inl ((likeMatch_ilikePattern q _ hw) ▸ h)
    · exact Or.inr ((likeMatch_ilikePattern q _ hw) ▸ h)
  · rfl

def dbOak : Db := ⟨[oakTree], []⟩

/-- Witness for C6 at the query `"oak"` against a catalog holding the
tree `Oak`/`Quercus`: the returned tree matches case-insensitively. -/
theorem search_substring_filter_witness :
    containsCI "oak" oakTree.common_name = true ∨
    containsCI "oak" oakTree.scientific_name = true :=
  (search_substring_filter dbOak 0 "oak" (by decide) (by decide)).1
    (selectTreeWithImages dbOak oakTree)
    (by rw [show (fetchTrees dbOak 0 PAGE_SIZE "oak").1 =
          [selectTreeWithImages dbOak oakTree] from rfl]
        exact List.mem_singleton_self _)

/-- **C6, counterexample.** The claim as stated fails for the non-empty
query `"%"`: the interpolated filter becomes `ilike %%%`, which matches
every name, so the tree `Oak`/`Quercus` is returned even though neither
of its names contains `"%"` as a substring. -/
theorem search_wildcard_counterexample :
    ("%" : String) ≠ "" ∧
    (fetchTrees dbOak 0 PAGE_SIZE "%").1.map (fun tw => tw.tree.common_name) =
      ["Oak"] ∧
    containsCI "%" "Oak" = false ∧ containsCI "%" "Quercus" = false :=
  ⟨by decide, by decide, by decide, by decide⟩

/-! ## C2/C7: the tree form's submission -/

/-- **C2.** Client-side JSON validation of the care timeline is atomic:
for a premium submission with non-empty care-timeline text, a parse
failure or a non-array parse result aborts `onSubmit` with an
`Invalid JSON format for Care Timeline` error before any insert or update
(the `.error` result of `onSubmitWrite` is produced before any `DbWrite`);
when the text parses as an array, the parsed value is what is written to
the `care_timeline` field. -/
theorem care_timeline_validation (parse : String → Except String Json)
    (userId : String) (initialId : Option String) (data : TreeFormData)
    (hp : data.is_premium = true) (hc : jsTruthyStr data.care_timeline = true) :
    (∀ msg, parse (data.care_timeline.getD "") = .error msg →
      onSubmitWrite parse userId initialId data =
        .error ("Invalid JSON format for Care Timeline: " ++ msg)) ∧
    (∀ j, parse (data.care_timeline.getD "") = .ok j → j.isArray = false →
      onSubmitWrite parse userId initialId data =
        .error "Invalid JSON format for Care Timeline: Care timeline must be a valid JSON array.") ∧
    (∀ j, parse (data.care_timeline.getD "") = .ok j → j.isArray = true →
      ∃ w, onSubmitWrite parse userId initialId data = .ok w ∧
        w.row.care_timeline = some j) := by
  have hcond : (data.is_premium && jsTruthyStr data.care_timeline) = true := by
    rw [hp, hc]; rfl
  refine ⟨?_, ?_, ?_⟩
  · intro msg hmsg
    have hpct : parseCareTimeline parse data =
        .error ("Invalid JSON format for Care Timeline: " ++ msg) := by
      unfold parseCareTimeline
      rw [if_pos hcond, hmsg]
    unfold onSubmitWrite
    rw [hpct]
  · intro j hj hnotarr
    have hpct : parseCareTimeline parse data =
        .error "Invalid JSON format for Care Timeline: Care timeline must be a valid JSON array." := by
      unfold parseCareTimeline
      rw [if_pos hcond, hj]
      simp [hnotarr]
    unfold onSubmitWrite
    rw [hpct]
  · intro j hj harr
    have hpct : parseCareTimeline parse data = .ok (some j) := by
      unfold parseCareTimeline
      rw [if_pos hcond, hj]
      simp [harr]
    unfold onSubmitWrite
    rw [hpct]
    cases initialId with
    | some id =>
      exact ⟨_, rfl, by simp [DbWrite.row, rowFromForm, premiumFieldsOf, hp]⟩
    | none =>
      exact ⟨_, rfl, by simp [DbWrite.row, rowFromForm, premiumFieldsOf, hp]⟩

/-- A sample premium form whose care timeline is the text `"oops"`. -/
def premiumForm : TreeFormData :=
  { common_name := "Oak", scientific_name := "Quercus", facts := none
    description := none, latitude := none, longitude := none, location := none
    landmark := none, carbon_footprint := none, is_premium := true
    age := some 100, biological_conditions := some "healthy"
    care_timeline := some "oops", benefits := some "shade" }

/-- Witness for C2: a parse failure on `"oops"` aborts the submission
with the `Invalid JSON format` error. -/
theorem care_timeline_validation_witness :
    onSubmitWrite (fun _ => .error "Unexpected token o") "u1" none premiumForm =
      .error "Invalid JSON format for Care Timeline: Unexpected token o" :=
  (care_timeline_validation (fun _ => .error "Unexpected token o") "u1" none
      premiumForm rfl rfl).1 "Unexpected token o" rfl

/-- The zod schema `treeSchema` only lets `age` through when it is a
positive integer, so every `data` reaching `onSubmit` satisfies this. -/
def AgePositive (data : TreeFormData) : Prop :=
  ∀ a, data.age = some a → 0 < a

/-- **C7.** Premium-field gating: a submission with `is_premium` false
writes `is_premium = false` and null `age`, `biological_conditions`,
`care_timeline` and `benefits` regardless of the premium form values;
with `is_premium` true those fields are written from the form data with
empty/absent values mapped to null (and the care timeline as its parsed
JSON array). -/
theorem premium_field_gating (parse : String → Except String Json)
    (userId : String) (initialId : Option String) (data : TreeFormData)
    (w : DbWrite) (hage : AgePositive data)
    (h : onSubmitWrite parse userId initialId data = .ok w) :
    (data.is_premium = false →
      w.row.is_premium = false ∧ w.row.age = none ∧
      w.row.biological_conditions = none ∧ w.row.care_timeline = none ∧
      w.row.benefits = none) ∧
    (data.is_premium = true →
      w.row.is_premium = true ∧ w.row.age = data.age ∧
      w.row.biological_conditions = jsOrNullStr data.biological_conditions ∧
      w.row.benefits = jsOrNullStr data.benefits ∧
      (jsTruthyStr data.care_timeline = false → w.row.care_timeline = none) ∧
      (∀ j, jsTruthyStr data.care_timeline = true →
        parse (data.care_timeline.getD "") = .ok j → j.isArray = true →
        w.row.care_timeline = some j)) := by
  obtain ⟨parsed, hpct, hw⟩ :
      ∃ parsed, parseCareTimeline parse data = .ok parsed ∧
        w.row = rowFromForm data (premiumFieldsOf data parsed) := by
    unfold onSubmitWrite at h
    rcases hpc : parseCareTimeline parse data with e | parsed
    · rw [hpc] at h; cases h
    · rw [hpc] at h
      cases initialId with
      | some id => cases h; exact ⟨parsed, rfl, rfl⟩
      | none => cases h; exact ⟨parsed, rfl, rfl⟩
  constructor
  · intro hfalse
    rw [hw]
    simp [rowFromForm, premiumFieldsOf, hfalse]
  · intro htrue
    refine ⟨?_, ?_, ?_, ?_, ?_, ?_⟩
    · rw [hw]; simp [rowFromForm, premiumFieldsOf, htrue]
    · rw [hw]
      simp only [rowFromForm, premiumFieldsOf, htrue, if_true]
      cases hag : data.age with
      | none => simp [jsOrNullInt]
      | some a =>
        have ha : 0 < a := hage a hag
        have hne : ¬ a = 0 := by omega
        simp [jsOrNullInt, hne]
    · rw [hw]; simp [rowFromForm, premiumFieldsOf, htrue]
    · rw [hw]; simp [rowFromForm, premiumFieldsOf, htrue]
    · intro hct
      have hcond : (data.is_premium && jsTruthyStr data.care_timeline) = false := by
        rw [htrue, hct]; rfl
      have hnone : parseCareTimeline parse data = .ok none := by
        unfold parseCareTimeline
        rw [if_neg (by rw [hcond]; exact Bool.false_ne_true)]
      have hparsed : parsed = none := by
        rw [hpct] at hnone
        exact Except.ok.inj hnone
      rw [hw]
      simp [rowFromForm, premiumFieldsOf, htrue, hparsed]
    · intro j hct hj harr
      have hcond : (data.is_premium && jsTruthyStr data.care_timeline) = true := by
        rw [htrue, hct]; rfl
      have hsome : parseCareTimeline parse data = .ok (some j) := by
        unfold parseCareTimeline
        rw [if_pos hcond, hj]
        simp [harr]
      have hparsed : parsed = some j := by
        rw [hpct] at hsome
        exact Except.ok.inj hsome
      rw [hw]
      simp [rowFromForm, premiumFieldsOf, htrue, hparsed]

/-- A non-premium submission carrying junk premium values. -/
def nonPremiumForm : TreeFormData :=
  { common_name := "Oak", scientific_name := "Quercus", facts := none
    description := none, latitude := none, longitude := none, location := none
    landmark := none, carbon_footprint := none, is_premium := false
    age := some 100, biological_conditions := some "healthy"
    care_timeline := some "not json", benefits := some "shade" }

/-- Witness for C7: the junk premium values of a non-premium submission
are all written as null. -/
theorem premium_field_gating_witness :
    (DbWrite.insertTree "u1"
        (rowFromForm nonPremiumForm (premiumFieldsOf nonPremiumForm none))).row.age = none ∧
    (DbWrite.insertTree "u1"
        (rowFromForm nonPremiumForm (premiumFieldsOf nonPremiumForm none))).row.benefits = none := by
  have h := premium_field_gating (fun _ => .error "unused") "u1" none nonPremiumForm
    (DbWrite.insertTree "u1"
      (rowFromForm nonPremiumForm (premiumFieldsOf nonPremiumForm none)))
    (fun a ha => by
      have : (100 : Int) = a := by simpa [nonPremiumForm] using ha
      omega)
    rfl
  exact ⟨(h.1 rfl).2.1, (h.1 rfl).2.2.2.2⟩

/-! ## C3: role gating -/

/-- **C3.** Role gating is checked both server- and client-side: the
admin page proceeds (with `isAdmin = true`) exactly when the fetched
profile's role name is `"admin"` and otherwise redirects to the
dashboard; the dashboard's client-side `isAdmin` flag is set to true,
for a successful profile fetch, exactly when the fetched profile's role
name is `"admin"`. -/
theorem role_gating
    (profileFetch clientFetch : Except String (Option UserProfileWithSingleRole))
    (prev : Bool) :
    (adminRoleGate profileFetch = .proceed true ↔
      ∃ prof r, profileFetch = .ok (some prof) ∧ prof.role = some r ∧
        r.name = "admin") ∧
    (adminRoleGate profileFetch = .proceed true ∨
      adminRoleGate profileFetch = .redirectDashboard) ∧
    (∀ v, clientFetch = .ok v →
      (dashboardIsAdmin clientFetch prev = true ↔
        ∃ prof r, v = some prof ∧ prof.role = some r ∧ r.name = "admin")) := by
  refine ⟨?_, ?_, ?_⟩
  · cases profileFetch with
    | error e => simp [adminRoleGate]
    | ok v =>
      cases v with
      | none => simp [adminRoleGate]
      | some prof =>
        cases hr : prof.role with
        | none => simp [adminRoleGate, hr]
        | some r =>
          by_cases hn : r.name = "admin"
          · simp [adminRoleGate, hr, hn]
          · simp [adminRoleGate, hr, hn]
  · cases profileFetch with
    | error e => exact Or.inr rfl
    | ok v =>
      cases v with
      | none => exact Or.inr rfl
      | some prof =>
        cases hr : prof.role with
        | none => simp [adminRoleGate, hr]
        | some r =>
          by_cases hn : r.name = "admin"
          · simp [adminRoleGate, hr, hn]
          · simp [adminRoleGate, hr, hn]
  · intro v hv
    subst hv
    cases v with
    | none => simp [dashboardIsAdmin]
    | some prof =>
      cases hr : prof.role with
      | none => simp [dashboardIsAdmin, hr]
      | some r =>
        by_cases hn : r.name = "admin"
        · simp [dashboardIsAdmin, hr, hn]
        · simp [dashboardIsAdmin, hr, hn]

def adminProfile : UserProfileWithSingleRole := ⟨"u1", none, some ⟨1, "admin"⟩⟩

/-- Witness for C3: a profile with role name `"admin"` passes the admin
page's gate and turns the dashboard's `isAdmin` flag on. -/
theorem role_gating_witness :
    adminRoleGate (.ok (some adminProfile)) = .proceed true ∧
    dashboardIsAdmin (.ok (some adminProfile)) false = true := by
  have h := role_gating (.ok (some adminProfile)) (.ok (some adminProfile)) false
  exact ⟨h.1.mpr ⟨adminProfile, ⟨1, "admin"⟩, rfl, rfl, rfl⟩,
    (h.2.2 (some adminProfile) rfl).mpr ⟨adminProfile, ⟨1, "admin"⟩, rfl, rfl, rfl⟩⟩

/-! ## C8: the proxy API routes -/

theorem proxyPost_spec (url : String) (fb : Json → Json) (fallback : String)
    (requestBody : Except String Json) (authHeader : Option String)
    (remote : ForwardedRequest → Except String RemoteResponse) :
    (∀ reqJson, requestBody = .ok reqJson →
      (proxyPost url fb fallback requestBody authHeader remote).forwarded =
        some ⟨url, authHeader.getD "", fb reqJson⟩) ∧
    (∀ reqJson r data, requestBody = .ok reqJson →
      remote ⟨url, authHeader.getD "", fb reqJson⟩ = .ok r →
      r.body = .ok data → r.ok = true →
      (proxyPost url fb fallback requestBody authHeader remote).response =
        ⟨200, data⟩) ∧
    (∀ reqJson r data, requestBody = .ok reqJson →
      remote ⟨url, authHeader.getD "", fb reqJson⟩ = .ok r →
      r.body = .ok data → r.ok = false →
      (proxyPost url fb fallback requestBody authHeader remote).response =
        ⟨r.status, .obj [("error",
          if (data.getField "error").truthy then data.getField "error"
          else .str fallback)]⟩) ∧
    (∀ e, requestBody = .error e →
      (proxyPost url fb fallback requestBody authHeader remote).response =
        ⟨500, .obj [("error", .str (jsOrElse e "Internal Server Error"))]⟩) ∧
    (∀ reqJson e, requestBody = .ok reqJson →
      remote ⟨url, authHeader.getD "", fb reqJson⟩ = .error e →
      (proxyPost url fb fallback requestBody authHeader remote).response =
        ⟨500, .obj [("error", .str (jsOrElse e "Internal Server Error"))]⟩) := by
  refine ⟨?_, ?_, ?_, ?_, ?_⟩
  · intro reqJson hrb
    subst hrb
    show (proxyForward ⟨url, authHeader.getD "", fb reqJson⟩ fallback remote).forwarded = _
    unfold proxyForward
    rcases remote ⟨url, authHeader.getD "", fb reqJson⟩ with e | ⟨rok, rstatus, rbody⟩
    · rfl
    · rcases rbody with e | data
      · rfl
      · cases rok <;> rfl
  · intro reqJson r data hrb hrem hbody hok
    subst hrb
    obtain ⟨rok, rstatus, rbody⟩ := r
    have hok' : rok = true := hok
    have hbody' : rbody = .ok data := hbody
    subst hok'
    subst hbody'
    show (proxyForward ⟨url, authHeader.getD "", fb reqJson⟩ fallback remote).response = _
    unfold proxyForward
    rw [hrem]
    rfl
  · intro reqJson r data hrb hrem hbody hok
    subst hrb
    obtain ⟨rok, rstatus, rbody⟩ := r
    have hok' : rok = false := hok
    have hbody' : rbody = .ok data := hbody
    subst hok'
    subst hbody'
    show (proxyForward ⟨url, authHeader.getD "", fb reqJson⟩ fallback remote).response = _
    unfold proxyForward
    rw [hrem]
    rfl
  · intro e hrb
    subst hrb
    rfl
  · intro reqJson e hrb hrem
    subst hrb
    show (proxyForward ⟨url, authHeader.getD "", fb reqJson⟩ fallback remote).response = _
    unfold proxyForward
    rw [hrem]

/-- **C8.** Each proxy endpoint forwards the destructured JSON body and
the client's `Authorization` header (`""` when absent) to its edge
function and surfaces the remote outcome: remote success is returned with
status 200; remote failure with the remote status and
`data.error || <fixed fallback>`; an internal exception (body parse,
fetch, or response-body parse) yields status 500 with the exception's
message (`"Internal Server Error"` when the message is empty). -/
theorem proxy_routes_surface_remote_outcome
    (requestBody : Except String Json) (authHeader : Option String)
    (remote : ForwardedRequest → Except String RemoteResponse) :
    ((∀ reqJson, requestBody = .ok reqJson →
      (createUserRoute requestBody authHeader remote).forwarded =
        some ⟨"https://hvsiqynmuomnmpzeivxs.supabase.co/functions/v1/create-user-by-admin-",
          authHeader.getD "", createUserForwardedBody reqJson⟩) ∧
    (∀ reqJson r data, requestBody = .ok reqJson →
      remote ⟨"https://hvsiqynmuomnmpzeivxs.supabase.co/functions/v1/create-user-by-admin-",
          authHeader.getD "", createUserForwardedBody reqJson⟩ = .ok r →
      r.body = .ok data → r.ok = true →
      (createUserRoute requestBody authHeader remote).response = ⟨200, data⟩) ∧
    (∀ reqJson r data, requestBody = .ok reqJson →
      remote ⟨"https://hvsiqynmuomnmpzeivxs.supabase.co/functions/v1/create-user-by-admin-",
          authHeader.getD "", createUserForwardedBody reqJson⟩ = .ok r →
      r.body = .ok data → r.ok = false →
      (createUserRoute requestBody authHeader remote).response =
        ⟨r.status, .obj [("error",
          if (data.getField "error").truthy then data.getField "error"
          else .str "Failed to create user via Edge Function")]⟩) ∧
    (∀ e, requestBody = .error e →
      (createUserRoute requestBody authHeader remote).response =
        ⟨500, .obj [("error", .str (jsOrElse e "Internal Server Error"))]⟩) ∧
    (∀ reqJson e, requestBody = .ok reqJson →
      remote ⟨"https://hvsiqynmuomnmpzeivxs.supabase.co/functions/v1/create-user-by-admin-",
          authHeader.getD "", createUserForwardedBody reqJson⟩ = .error e →
      (createUserRoute requestBody authHeader remote).response =
        ⟨500, .obj [("error", .str (jsOrElse e "Internal Server Error"))]⟩)) ∧
    ((∀ reqJson, requestBody = .ok reqJson →
      (deleteUserRoute requestBody authHeader remote).forwarded =
        some ⟨"https://hvsiqynmuomnmpzeivxs.supabase.co/functions/v1/delete-user-by-admin",
          authHeader.getD "", deleteUserForwardedBody reqJson⟩) ∧
    (∀ reqJson r data, requestBody = .ok reqJson →
      remote ⟨"https://hvsiqynmuomnmpzeivxs.supabase.co/functions/v1/delete-user-by-admin",
          authHeader.getD "", deleteUserForwardedBody reqJson⟩ = .ok r →
      r.body = .ok data → r.ok = true →
      (deleteUserRoute requestBody authHeader remote).response = ⟨200, data⟩) ∧
    (∀ reqJson r data, requestBody = .ok reqJson →
      remote ⟨"https://hvsiqynmuomnmpzeivxs.supabase.co/functions/v1/delete-user-by-admin",
          authHeader.getD "", deleteUserForwardedBody reqJson⟩ = .ok r →
      r.body = .ok data → r.ok = false →
      (deleteUserRoute requestBody authHeader remote).response =
        ⟨r.status, .obj [("error",
          if (data.getField "error").truthy then data.getField "error"
          else .str "Failed to delete user via Edge Function")]⟩) ∧
    (∀ e, requestBody = .error e →
      (deleteUserRoute requestBody authHeader remote).response =
        ⟨500, .obj [("error", .str (jsOrElse e "Internal Server Error"))]⟩) ∧
    (∀ reqJson e, requestBody = .ok reqJson →
      remote ⟨"https://hvsiqynmuomnmpzeivxs.supabase.co/functions/v1/delete-user-by-admin",
          authHeader.getD "", deleteUserForwardedBody reqJson⟩ = .error e →
      (deleteUserRoute requestBody authHeader remote).response =
        ⟨500, .obj [("error", .str (jsOrElse e "Internal Server Error"))]⟩)) :=
  ⟨proxyPost_spec _ _ _ requestBody authHeader remote,
    proxyPost_spec _ _ _ requestBody authHeader remote⟩

/-- Witness for C8: a successful remote call through the delete-user
route is surfaced with status 200 and the remote body. -/
theorem proxy_routes_witness :
    (deleteUserRoute (.ok (.obj [("userId", .str "u5")])) (some "Bearer tok")
      (fun _ => .ok ⟨true, 200, .ok (.obj [("done", .bool true)])⟩)).response =
      ⟨200, .obj [("done", .bool true)]⟩ :=
  (proxy_routes_surface_remote_outcome (.ok (.obj [("userId", .str "u5")]))
      (some "Bearer tok")
      (fun _ => .ok ⟨true, 200, .ok (.obj [("done", .bool true)])⟩)).2.2.1
    (.obj [("userId", .str "u5")]) ⟨true, 200, .ok (.obj [("done", .bool true)])⟩
    (.obj [("done", .bool true)]) rfl rfl rfl rfl

/-! ## C9: ownership restriction on editing -/

/-- **C9.** The edit page's `getTree` only returns a tree whose id
matches the request and whose `user_id` is the authenticated user's id;
for a stored tree with that id owned by a different user (admins
included — the query has no admin branch) the fetch yields no row, so
the page renders `notFound()`. -/
theorem edit_page_ownership (db : Db) (uid id : String)
    (hids : (db.trees.map Tree.id).Nodup) :
    (∀ tw, editGetTree db uid id = some tw →
      tw.tree.id = id ∧ tw.tree.user_id = uid) ∧
    (∀ t ∈ db.trees, t.id = id → t.user_id ≠ uid →
      editTreePage db (some uid) id = .renderNotFound) := by
  constructor
  · intro tw htw
    unfold editGetTree at htw
    rcases ho : singleRow (db.trees.filter fun t => t.id == id && t.user_id == uid)
      with _ | t0
    · rw [ho] at htw; cases htw
    · rw [ho] at htw
      have hs : some (selectTreeWithImages db t0) = some tw := htw
      have heq := Option.some.inj hs
      have hmem : t0 ∈ db.trees.filter fun t => t.id == id && t.user_id == uid := by
        rw [singleRow_eq_some _ _ ho]
        exact List.mem_singleton_self t0
      have hpred := (List.mem_filter.1 hmem).2
      simp only [Bool.and_eq_true, beq_iff_eq] at hpred
      rw [← heq]
      exact hpred
  · intro t ht htid hneq
    have hfe : db.trees.filter (fun x => x.id == id && x.user_id == uid) = [] := by
      rw [List.filter_eq_nil_iff]
      intro a ha
      simp only [Bool.and_eq_true, beq_iff_eq]
      rintro ⟨haid, hauid⟩
      have haeq : a = t :=
        List.inj_on_of_nodup_map hids ha ht (by rw [haid, htid])
      exact hneq (haeq ▸ hauid)
    have hnone : editGetTree db uid id = none := by
      unfold editGetTree
      rw [hfe]
      rfl
    show (match editGetTree db uid id with
      | none => EditPageOutcome.renderNotFound
      | some t => EditPageOutcome.renderEditForm t) = EditPageOutcome.renderNotFound
    rw [hnone]

/-- Witness for C9: a tree owned by `alice` makes the edit page render
404 for the viewer `bob`. -/
theorem edit_page_ownership_witness :
    editTreePage ⟨[oakTree], []⟩ (some "bob") "t1" = .renderNotFound :=
  (edit_page_ownership ⟨[oakTree], []⟩ "bob" "t1" (by decide)).2
    oakTree (List.mem_singleton_self oakTree) rfl (by decide)

/-! ## C10: self-deletion guard in the admin user manager -/

/-- **C10.** The Delete button of a listed profile is disabled whenever
the profile's id is the signed-in user's own id (so the UI cannot issue a
self-delete request from it); and in `handleDeleteUser`'s defensive
branch where the deleted id does equal the current user's id, the client
signs out and navigates to `/` (the login page). -/
theorem delete_user_self_guard (deletingUserId : Option String)
    (isCreatingUser : Bool) (isUpdatingRole : Option String)
    (currentUserId : Option String) (profileId : String)
    (session : Option String) (deleteApi : String → String → Except String Unit)
    (confirmed : Bool) (token : String) :
    (currentUserId = some profileId →
      deleteButtonDisabled deletingUserId isCreatingUser isUpdatingRole
        currentUserId profileId = true) ∧
    (∀ uid, currentUserId = some uid → confirmed = true →
      session = some token → deleteApi token uid = .ok () →
      handleDeleteUser confirmed session currentUserId deleteApi uid =
        [.deleteRequest token uid,
          .setManageUserSuccess ("User " ++ uid.take 8 ++ "... deleted successfully."),
          .resetToFirstPage, .signOut, .navigate "/"]) := by
  constructor
  · intro hself
    subst hself
    unfold deleteButtonDisabled
    simp
  · intro uid hself hconf hsess hapi
    subst hself
    subst hconf
    subst hsess
    simp [handleDeleteUser, hapi]

/-- Witness for C10: with the admin (`"a1"`) deleting their own account
through the defensive branch, the effects end with sign-out and a
navigation to `/`; and their own row's Delete button is disabled. -/
theorem delete_user_self_guard_witness :
    deleteButtonDisabled none false none (some "a1") "a1" = true ∧
    handleDeleteUser true (some "tok") (some "a1") (fun _ _ => .ok ()) "a1" =
      [.deleteRequest "tok" "a1",
        .setManageUserSuccess ("User " ++ ("a1" : String).take 8 ++ "... deleted successfully."),
        .resetToFirstPage, .signOut, .navigate "/"] := by
  have h := delete_user_self_guard none false none (some "a1") "a1"
    (some "tok") (fun _ _ => .ok ()) true "tok"
  exact ⟨h.1 rfl, h.2 "a1" rfl rfl rfl rfl⟩

end TreeTrace
